import Mathlib

/-
Verification of the Spot coding agent's conversation core.

This file gives a shallow embedding, in Lean 4, of the data model and the
operations of the Spot repository that the specification's claims are about:

* session data model             (src/session/types.ts)
* token estimation + summarizer  (src/session/summarizer.ts)
* session manager operations     (src/repl.ts, SessionManager)
* session persistence            (src/session/storage.ts)
* tool registry                  (src/tools/index.ts)
* tool-call extraction and loop  (src/ollama-client.ts, OllamaClient)

Conventions of the embedding:

* JS numbers holding timestamps/counters are modelled as `Nat`.
* External nondeterministic inputs are passed as explicit parameters:
  the model backend of the summarizer is a function `String → Except String String`
  (an exception or a response), the digest step of `maybeCompress` is a
  function `List Message → String`, `Date.now()` is a `Nat` argument,
  `randomUUID()` is a `String` argument, and the sha256 hex digest used by
  the storage key is a `String → String` argument.
* `JSON.parse` applied to tool-call argument payloads is an explicit
  parameter `jparse : String → Option J` (`none` models a parse exception);
  the claims about extraction depend only on success/failure of that parse.
* The durable filesystem is a path-keyed association list of JSON
  documents; `JSON.stringify`/`JSON.parse` of whole sessions are modelled
  by a concrete encoder/decoder pair over a JSON value type mirroring the
  serialized record shape.
* Thrown JS exceptions are modelled with `Except`/`Option`.
-/

namespace Spot

/-! ## Data model (src/session/types.ts) -/

/-- Message roles: 'system' | 'user' | 'assistant' | 'tool'. -/
inductive Role where
  | system
  | user
  | assistant
  | tool
deriving DecidableEq, Repr

/-- Task status: 'pending' | 'in_progress' | 'completed'. -/
inductive TaskStatus where
  | pending
  | inProgress
  | completed
deriving DecidableEq, Repr

/-- A conversation message (interface Message). -/
structure Message where
  role : Role
  content : String
  timestamp : Nat
deriving DecidableEq, Repr

/-- A tracked task (interface Task). -/
structure Task where
  id : String
  content : String
  status : TaskStatus
  created : Nat
deriving DecidableEq, Repr

/-- The session / transcript record (interface Session). -/
structure Session where
  id : String
  projectRoot : String
  model : String
  messages : List Message
  summary : Option String
  summaryUpTo : Nat
  todos : List Task
  created : Nat
  updated : Nat
deriving DecidableEq, Repr

/-- Metadata of an archived session (interface SessionMetadata). -/
structure SessionMetadata where
  id : String
  projectRoot : String
  model : String
  messageCount : Nat
  created : Nat
  updated : Nat
deriving DecidableEq, Repr

/-! ## Token estimation (src/session/summarizer.ts) -/

/-- estimateTokens: `Math.ceil(text.length / 4)` — four characters per unit. -/
def estimateTokens (text : String) : Nat :=
  (text.length + 3) / 4

/-- estimateMessagesTokens: `messages.reduce((sum, m) => sum + estimateTokens(m.content), 0)`. -/
def estimateMessagesTokens (messages : List Message) : Nat :=
  messages.foldl (fun sum m => sum + estimateTokens m.content) 0

/-! ## Summarizer (src/session/summarizer.ts) -/

/-- The fixed instruction prefixed to the digest request (SUMMARIZE_PROMPT). -/
def SUMMARIZE_PROMPT : String :=
  "You are a conversation summarizer. Summarize the following conversation between a user and an AI assistant (Spot).\n\nFocus on:\n- Key decisions made\n- Important facts established\n- Tasks completed or in progress\n- Any code changes or file modifications\n- Context the assistant needs to continue helping\n\nBe concise but preserve critical details. Output only the summary, no preamble.\n\nConversation:\n"

/-- Role label used when formatting messages for the digest request:
`m.role === 'user' ? 'User' : m.role === 'assistant' ? 'Spot' : 'Tool'`. -/
def roleLabel (r : Role) : String :=
  match r with
  | Role.user => "User"
  | Role.assistant => "Spot"
  | _ => "Tool"

/-- Truncation of very long messages before the digest request:
`m.content.length > 2000 ? m.content.slice(0, 2000) + '...[truncated]' : m.content`. -/
def truncateContent (content : String) : String :=
  if content.length > 2000 then content.take 2000 ++ "...[truncated]" else content

/-- The formatted conversation body of the digest request (Summarizer.summarize). -/
def formatForSummary (messages : List Message) : String :=
  String.intercalate "\n\n"
    ((messages.filter (fun m => !(m.role == Role.system))).map
      (fun m => roleLabel m.role ++ ": " ++ truncateContent m.content))

/-- The full prompt sent to the digest model (SUMMARIZE_PROMPT + formatted). -/
def summarizePrompt (messages : List Message) : String :=
  SUMMARIZE_PROMPT ++ formatForSummary messages

/-- JS `\w` character class: [A-Za-z0-9_]. -/
def isWordChar (c : Char) : Bool :=
  c.isAlpha || c.isDigit || c == '_'

/-- Character class of the file-path regex `[\/\w.-]`. -/
def isPathChar (c : Char) : Bool :=
  c == '/' || isWordChar c || c == '.' || c == '-'

/-- JS `\s` (whitespace) character class. -/
def isJsSpace (c : Char) : Bool :=
  c == ' ' || c == '\t' || c == '\n' || c == '\r' || c == '\x0b' || c == '\x0c' ||
  c == '\u00A0' || c == '\u1680' || (0x2000 ≤ c.val.toNat && c.val.toNat ≤ 0x200A) ||
  c == '\u2028' || c == '\u2029' || c == '\u202F' || c == '\u205F' || c == '\u3000' ||
  c == '\uFEFF'

/-- Drop leading JS whitespace (the `\s*` regex atom). -/
def dropWs (l : List Char) : List Char :=
  l.dropWhile isJsSpace

/-- Search, from index `k` downward, for the largest index `i ≥ 1` such that
`run.get i = '.'` and the next character is a word character: the backtracking
of the greedy `[\/\w.-]+` atom before `\.\w+` in the file-path regex. -/
def pathDot (run : List Char) : Nat → Option Nat
  | 0 => none
  | m + 1 =>
    if run[m + 1]? == some '.' && (run[m + 2]?.any isWordChar) then some (m + 1)
    else pathDot run m

/-- Match the file-path regex `[\/\w.-]+\.\w+` at the head of `l`; on success
return the matched text and the remaining characters. -/
def pathMatchAt (l : List Char) : Option (String × List Char) :=
  let run := l.takeWhile isPathChar
  match pathDot run (run.length - 1) with
  | none => none
  | some m =>
    let wlen := ((run.drop (m + 1)).takeWhile isWordChar).length
    some (String.mk (run.take (m + 1 + wlen)), l.drop (m + 1 + wlen))

/-- Global scan of the file-path regex (the `/g` flag): find successive
non-overlapping leftmost matches.  Fuel is the input length, always enough
because every step consumes at least one character. -/
def scanPaths : Nat → List Char → List String
  | 0, _ => []
  | _ + 1, [] => []
  | fuel + 1, c :: cs =>
    match pathMatchAt (c :: cs) with
    | some (s, rest) => s :: scanPaths fuel rest
    | none => scanPaths fuel cs

/-- All matches of `/[\/\w.-]+\.\w+/g` in a string (fallbackSummary's path scan). -/
def pathMatches (text : String) : List String :=
  scanPaths (text.data.length + 1) text.data

/-- `[...new Set(xs)]`: deduplicate keeping the first occurrence of each element. -/
def dedupFirst : List String → List String
  | [] => []
  | x :: xs => x :: dedupFirst (xs.filter (fun y => !(y == x)))
termination_by l => l.length
decreasing_by
  simp only [List.length_cons]
  exact Nat.lt_succ_of_le (List.length_filter_le _ _)

/-- Summarizer.fallbackSummary: the deterministic local summary used when the
digest request fails — user/assistant message counts plus up to 10 distinct
file-path-like tokens found in the joined content. -/
def fallbackSummary (messages : List Message) : String :=
  let userMessages := (messages.filter (fun m => m.role == Role.user)).length
  let assistantMessages := (messages.filter (fun m => m.role == Role.assistant)).length
  let allContent := String.intercalate " " (messages.map (fun m => m.content))
  let uniquePaths := (dedupFirst (pathMatches allContent)).take 10
  let base := "Previous conversation: " ++ toString userMessages ++ " user messages, " ++
    toString assistantMessages ++ " assistant responses."
  if uniquePaths.length > 0 then
    base ++ " Files discussed: " ++ String.intercalate ", " uniquePaths ++ "."
  else base

/-- Summarizer.summarize: send the digest request to the backend; on success
return the model's content, on an exception fall back to `fallbackSummary`. -/
def Summarizer.summarize (backend : String → Except String String)
    (messages : List Message) : String :=
  match backend (summarizePrompt messages) with
  | Except.ok content => content
  | Except.error _ => fallbackSummary messages

/-! ## SessionManager (src/repl.ts) -/

/-- When to trigger summarization (in estimated tokens). -/
def CONTEXT_THRESHOLD : Nat := 24000

/-- How many recent messages to keep after summarization. -/
def KEEP_RECENT_MESSAGES : Nat := 10

/-- SessionManager.createEmptySession; `id` models `randomUUID()` and `now`
models `Date.now()`. -/
def createEmptySession (projectRoot model id : String) (now : Nat) : Session :=
  { id := id
    projectRoot := projectRoot
    model := model
    messages := []
    summary := none
    summaryUpTo := 0
    todos := []
    created := now
    updated := now }

/-- SessionManager.addMessage; `now` models `Date.now()`. -/
def addMessage (role : Role) (content : String) (now : Nat) (s : Session) : Session :=
  { s with messages := s.messages ++ [⟨role, content, now⟩], updated := now }

/-- SessionManager.setModel (only the model field changes; auto-save is scheduled). -/
def setModel (model : String) (s : Session) : Session :=
  { s with model := model }

/-- SessionManager.maybeCompress; `digest` models the awaited
`summarizer.summarize(toSummarize)` call.  `Math.max(0, length - K)` is `Nat`
subtraction; the JS truthiness test `if (this.session.summary)` is false for
both `null` and the empty string, which the inner `if old == ""` mirrors. -/
def maybeCompress (digest : List Message → String) (s : Session) : Session × Bool :=
  let messages := s.messages
  let tokenEstimate := estimateMessagesTokens messages
  if tokenEstimate < CONTEXT_THRESHOLD then (s, false)
  else
    let splitIndex := messages.length - KEEP_RECENT_MESSAGES
    let toSummarize := messages.take splitIndex
    if toSummarize.isEmpty then (s, false)
    else
      let newSummary := digest toSummarize
      let summary :=
        match s.summary with
        | some old => if old == "" then some newSummary
                      else some (old ++ "\n\n---\n\n" ++ newSummary)
        | none => some newSummary
      let summaryUpTo :=
        match toSummarize.getLast? with
        | some m => m.timestamp
        | none => s.summaryUpTo
      ({ s with
          summary := summary
          summaryUpTo := summaryUpTo
          messages := messages.drop splitIndex }, true)

/-- SessionManager.addTodo; `id` models `randomUUID().slice(0, 8)` and `now`
models `Date.now()`.  Returns the updated session and the created task. -/
def addTodo (content id : String) (now : Nat) (s : Session) : Session × Task :=
  let task : Task := ⟨id, content, TaskStatus.pending, now⟩
  ({ s with todos := s.todos ++ [task] }, task)

/-- Mutate the status of the first task with the given id
(`todos.find(t => t.id === id)` followed by `task.status = status`). -/
def updateTodoList (id : String) (status : TaskStatus) : List Task → List Task
  | [] => []
  | t :: ts =>
    if t.id == id then { t with status := status } :: ts
    else t :: updateTodoList id status ts

/-- SessionManager.updateTodo. Returns the updated session and whether a task
with the given id was found. -/
def updateTodo (id : String) (status : TaskStatus) (s : Session) : Session × Bool :=
  ({ s with todos := updateTodoList id status s.todos },
   s.todos.any (fun t => t.id == id))

/-- SessionManager.removeTodo (findIndex + splice). -/
def removeTodo (id : String) (s : Session) : Session × Bool :=
  match s.todos.findIdx? (fun t => t.id == id) with
  | some i => ({ s with todos := s.todos.eraseIdx i }, true)
  | none => (s, false)

/-- SessionManager.clearCompletedTodos. Returns the updated session and the
number of removed tasks. -/
def clearCompletedTodos (s : Session) : Session × Nat :=
  let remaining := s.todos.filter (fun t => !(t.status == TaskStatus.completed))
  ({ s with todos := remaining }, s.todos.length - remaining.length)

/-! ## Tool registry (src/tools/index.ts)

Each tool's description, parameter schema and `execute` implementation are
out of scope (the spec treats the concrete operations as external
collaborators); registry lookups depend only on the names, which are taken
verbatim from the tool modules. -/

/-- A registered capability, reduced to the name field used by the registry. -/
structure Tool where
  name : String
deriving DecidableEq, Repr

/-- allTools, in the source registration order. -/
def allTools : List Tool :=
  [⟨"ls"⟩, ⟨"read_file"⟩, ⟨"write_file"⟩, ⟨"edit_file"⟩,
   ⟨"bash"⟩, ⟨"glob"⟩, ⟨"grep"⟩, ⟨"todo"⟩]

/-- getToolByName: `allTools.find(t => t.name === name)`. -/
def getToolByName (name : String) : Option Tool :=
  allTools.find? (fun t => t.name == name)

/-! ## Tool-call extraction (src/ollama-client.ts, OllamaClient.parseToolCalls)

The primary grammar is the regex

  `\{\s*"name"\s*:\s*"([^"]+)"\s*,\s*"arguments"\s*:\s*(\{[^{}]*(?:\{[^{}]*\}[^{}]*)*\})\s*\}`

and the fallback grammar is

  `\b(bash|read_file|write_file|glob|grep|todo)\s*\(\s*(\{[^)]+\})\s*\)`

both with the `/g` flag.  They are implemented below as deterministic
character scanners; the only backtracking either pattern can perform (the
star of the primary arguments group giving up its last iteration, and the
greedy `[^)]+` of the fallback arguments shrinking to an earlier brace) is
resolved explicitly. -/

/-- A parsed tool call (interface ParsedToolCall); `J` is the type of the
parsed `arguments` payload. -/
structure ParsedToolCall (J : Type) where
  name : String
  arguments : J
deriving DecidableEq, Repr

/-- Expect one literal character. -/
def expectChar (c : Char) : List Char → Option (List Char)
  | [] => none
  | x :: xs => if x == c then some xs else none

/-- Expect a literal character sequence. -/
def stripLit (pat l : List Char) : Option (List Char) :=
  if pat.isPrefixOf l then some (l.drop pat.length) else none

/-- A character matched by `[^{}]`. -/
def notBrace (c : Char) : Bool :=
  !(c == '\x7b' || c == '\x7d')

/-- The loop of the arguments group `\{[^{}]*(?:\{[^{}]*\}[^{}]*)*\}` after
the opening brace and the first `[^{}]*` run: either the closing brace comes
next, or one inner `\{[^{}]*\}[^{}]*` iteration is consumed.  If an inner
brace is left unclosed the star backtracks onto a character that the final
`\}` cannot match, so the whole occurrence fails.  Fuel is the remaining
length; every iteration consumes at least one character. -/
def argsLoop : Nat → List Char → Option (List Char)
  | 0, _ => none
  | _ + 1, [] => none
  | fuel + 1, c :: rest =>
    if c == '\x7d' then some rest
    else if c == '\x7b' then
      match rest.dropWhile notBrace with
      | '\x7d' :: rest2 => argsLoop fuel (rest2.dropWhile notBrace)
      | _ => none
    else none

/-- Match the arguments group of the primary grammar at the head of `l`,
returning the remaining characters after the group. -/
def argsGroup : List Char → Option (List Char)
  | '\x7b' :: t => argsLoop (t.length + 1) (t.dropWhile notBrace)
  | _ => none

/-- Match the whole primary tool-call pattern at the head of `l`; on success
return the captured name, the captured arguments text, and the remainder. -/
def jsonMatchAt (l : List Char) : Option (String × String × List Char) :=
  match expectChar '\x7b' l with
  | none => none
  | some l1 =>
  match stripLit "\"name\"".data (dropWs l1) with
  | none => none
  | some l2 =>
  match expectChar ':' (dropWs l2) with
  | none => none
  | some l3 =>
  match expectChar '"' (dropWs l3) with
  | none => none
  | some l4 =>
    let name := l4.takeWhile (fun c => !(c == '"'))
    if name.isEmpty then none else
    match expectChar '"' (l4.dropWhile (fun c => !(c == '"'))) with
    | none => none
    | some l5 =>
    match expectChar ',' (dropWs l5) with
    | none => none
    | some l6 =>
    match stripLit "\"arguments\"".data (dropWs l6) with
    | none => none
    | some l7 =>
    match expectChar ':' (dropWs l7) with
    | none => none
    | some l8 =>
      let la := dropWs l8
      match argsGroup la with
      | none => none
      | some rest =>
        let argsStr := la.take (la.length - rest.length)
        match expectChar '\x7d' (dropWs rest) with
        | none => none
        | some l9 => some (String.mk name, String.mk argsStr, l9)

/-- Global scan of the primary grammar: successive leftmost non-overlapping
matches, in textual order.  Fuel is the input length, always enough because
every step consumes at least one character. -/
def scanJson : Nat → List Char → List (String × String)
  | 0, _ => []
  | _ + 1, [] => []
  | fuel + 1, c :: cs =>
    match jsonMatchAt (c :: cs) with
    | some (n, a, rest) => (n, a) :: scanJson fuel rest
    | none => scanJson fuel cs

/-- All (name, arguments-text) occurrences of the primary grammar. -/
def findJsonMatches (text : String) : List (String × String) :=
  scanJson (text.data.length + 1) text.data

/-- The alternation `(bash|read_file|write_file|glob|grep|todo)` of the
fallback grammar, in source order.  No two alternatives can match at the same
position, so first-match-wins is exact. -/
def matchAltName (l : List Char) : Option (String × List Char) :=
  if "bash".data.isPrefixOf l then some ("bash", l.drop 4)
  else if "read_file".data.isPrefixOf l then some ("read_file", l.drop 9)
  else if "write_file".data.isPrefixOf l then some ("write_file", l.drop 10)
  else if "glob".data.isPrefixOf l then some ("glob", l.drop 4)
  else if "grep".data.isPrefixOf l then some ("grep", l.drop 4)
  else if "todo".data.isPrefixOf l then some ("todo", l.drop 4)
  else none

/-- Search, from index `k` downward, for the largest index `i ≥ 1` such that
`t.get i = '}'` and the rest of the fallback pattern (`\s*\)`) matches after
it: the backtracking of the greedy `[^)]+` atom of `\{[^)]+\}`.  The caller
starts the search within the maximal `[^)]*` run, so the skipped body is
automatically free of `)`. -/
def fbClose (t : List Char) : Nat → Option Nat
  | 0 => none
  | k + 1 =>
    if t[k + 1]? == some '\x7d' && ((dropWs (t.drop (k + 2))).head? == some ')') then
      some (k + 1)
    else fbClose t k

/-- Match the fallback pattern (without its leading `\b`, checked by the
scanner) at the head of `l`; on success return the name, the captured
arguments text, and the remainder. -/
def fbMatchAt (l : List Char) : Option (String × String × List Char) :=
  match matchAltName l with
  | none => none
  | some (name, l1) =>
  match expectChar '(' (dropWs l1) with
  | none => none
  | some l2 =>
  match expectChar '\x7b' (dropWs l2) with
  | none => none
  | some t =>
    match fbClose t ((t.takeWhile (fun c => !(c == ')'))).length - 1) with
    | none => none
    | some k =>
      match expectChar ')' (dropWs (t.drop (k + 1))) with
      | none => none
      | some rest => some (name, String.mk ('\x7b' :: t.take (k + 1)), rest)

/-- Global scan of the fallback grammar; `prev` is the character before the
current position, for the `\b` word-boundary test (every alternative starts
with a word character, so the boundary holds iff `prev` is absent or not a
word character). -/
def scanFunc : Nat → Option Char → List Char → List (String × String)
  | 0, _, _ => []
  | _ + 1, _, [] => []
  | fuel + 1, prev, c :: cs =>
    let boundary :=
      match prev with
      | none => true
      | some p => !(isWordChar p)
    if boundary then
      match fbMatchAt (c :: cs) with
      | some (n, a, rest) => (n, a) :: scanFunc fuel (some ')') rest
      | none => scanFunc fuel (some c) cs
    else scanFunc fuel (some c) cs

/-- All (name, arguments-text) occurrences of the fallback grammar. -/
def findFuncMatches (text : String) : List (String × String) :=
  scanFunc (text.data.length + 1) none text.data

/-- OllamaClient.parseToolCalls.  For each primary occurrence, parse the
arguments payload (`JSON.parse`, modelled by `jparse`; a `none` models the
thrown-and-caught exception, silently skipping the occurrence) and keep the
call only if the name is registered.  The fallback grammar is consulted only
when the primary grammar accepted nothing, with the same parse-failure
tolerance and no registry check. -/
def parseToolCalls {J : Type} (jparse : String → Option J) (text : String) :
    List (ParsedToolCall J) :=
  let calls := (findJsonMatches text).filterMap (fun na =>
    match jparse na.2 with
    | some args => if (getToolByName na.1).isSome then some ⟨na.1, args⟩ else none
    | none => none)
  if calls.isEmpty then
    (findFuncMatches text).filterMap (fun na =>
      match jparse na.2 with
      | some args => some (⟨na.1, args⟩ : ParsedToolCall J)
      | none => none)
  else calls

/-! ## The tool round of the chat loop (src/ollama-client.ts, OllamaClient.chat)

`exec` models `tool.execute(tc.arguments, toolContext)` as a state transformer
that can throw (`Except.error`); `St` is the tool side-effect state.  The
streaming callbacks (`onToken`/`onToolCall`/`onToolResult`) perform no state
change relevant to the claims and are elided. -/

/-- A chat message sent to or received from the model (interface ChatMessage). -/
structure ChatMessage where
  role : Role
  content : String
deriving DecidableEq, Repr

/-- The wrapper of a tool result appended to the message list:
`{ role: 'user', content: "Tool result for <name>:\n<result>" }`. -/
def toolResultMessage (name result : String) : ChatMessage :=
  ⟨Role.user, "Tool result for " ++ name ++ ":\n" ++ result⟩

/-- One tool execution of the chat loop body: registry lookup, execution,
and the catch converting a thrown error into the text
`"Error executing <name>: <error>"` (the unknown-name branch yields
`"Unknown tool: <name>"`). -/
def execOne {J St : Type} (exec : String → J → St → Except String String × St)
    (tc : ParsedToolCall J) (st : St) : String × St :=
  match getToolByName tc.name with
  | some _ =>
    match exec tc.name tc.arguments st with
    | (Except.ok r, st') => (r, st')
    | (Except.error e, st') => ("Error executing " ++ tc.name ++ ": " ++ e, st')
  | none => ("Unknown tool: " ++ tc.name, st)

/-- The `for (const tc of toolCalls)` loop: execute each call in extraction
order, threading the tool state (each execution is awaited to completion
before the next begins), and collect the appended tool-result messages. -/
def runToolCalls {J St : Type} (exec : String → J → St → Except String String × St) :
    List (ParsedToolCall J) → St → St × List ChatMessage
  | [], st => (st, [])
  | tc :: rest, st =>
    let rs := execOne exec tc st
    let next := runToolCalls exec rest rs.2
    (next.1, toolResultMessage tc.name rs.1 :: next.2)

/-- OllamaClient.chat, seen from the point where a full model response has
been accumulated: `responses` is the stream of successive model-round
outputs.  A response with no extracted calls is the final answer; otherwise
the response is appended as an assistant message, the calls are executed,
their results appended, and a further model round is requested.  `none`
means the supplied response stream was exhausted while calls kept coming. -/
def chatLoop {J St : Type} (exec : String → J → St → Except String String × St)
    (jparse : String → Option J) :
    List String → List ChatMessage → St → Option (String × List ChatMessage × St)
  | [], _, _ => none
  | r :: rest, msgs, st =>
    let calls := parseToolCalls jparse r
    if calls.isEmpty then some (r, msgs, st)
    else
      let run := runToolCalls exec calls st
      chatLoop exec jparse rest ((msgs ++ [⟨Role.assistant, r⟩]) ++ run.2) run.1

/-! ## Serialized session records (JSON.stringify / JSON.parse)

`save` writes `JSON.stringify(session)`; the value type below mirrors the
JSON documents such a record contains, and the decoder mirrors
`JSON.parse(text) as Session` applied to a record of that shape (any other
document decodes to `none`, which `load` treats as absence). -/

/-- A JSON value (the fragment needed by serialized sessions). -/
inductive Json where
  | null : Json
  | str : String → Json
  | num : Nat → Json
  | arr : List Json → Json
  | obj : List (String × Json) → Json

/-- Role as serialized. -/
def roleToString : Role → String
  | Role.system => "system"
  | Role.user => "user"
  | Role.assistant => "assistant"
  | Role.tool => "tool"

/-- Role parsed back from a serialized record. -/
def roleOfString : String → Option Role
  | "system" => some Role.system
  | "user" => some Role.user
  | "assistant" => some Role.assistant
  | "tool" => some Role.tool
  | _ => none

/-- Task status as serialized. -/
def statusToString : TaskStatus → String
  | TaskStatus.pending => "pending"
  | TaskStatus.inProgress => "in_progress"
  | TaskStatus.completed => "completed"

/-- Task status parsed back from a serialized record. -/
def statusOfString : String → Option TaskStatus
  | "pending" => some TaskStatus.pending
  | "in_progress" => some TaskStatus.inProgress
  | "completed" => some TaskStatus.completed
  | _ => none

/-- A message as serialized by JSON.stringify. -/
def Message.toJson (m : Message) : Json :=
  Json.obj [("role", Json.str (roleToString m.role)),
            ("content", Json.str m.content),
            ("timestamp", Json.num m.timestamp)]

/-- A message read back from a serialized record. -/
def Message.fromJson? : Json → Option Message
  | Json.obj [("role", Json.str r), ("content", Json.str c), ("timestamp", Json.num t)] =>
    match roleOfString r with
    | some role => some ⟨role, c, t⟩
    | none => none
  | _ => none

/-- A task as serialized by JSON.stringify. -/
def Task.toJson (t : Task) : Json :=
  Json.obj [("id", Json.str t.id),
            ("content", Json.str t.content),
            ("status", Json.str (statusToString t.status)),
            ("created", Json.num t.created)]

/-- A task read back from a serialized record. -/
def Task.fromJson? : Json → Option Task
  | Json.obj [("id", Json.str i), ("content", Json.str c), ("status", Json.str st),
              ("created", Json.num cr)] =>
    match statusOfString st with
    | some status => some ⟨i, c, status, cr⟩
    | none => none
  | _ => none

/-- Decode every element of a JSON array, failing if any element fails. -/
def decodeList {α : Type} (dec : Json → Option α) : List Json → Option (List α)
  | [] => some []
  | j :: js =>
    match dec j, decodeList dec js with
    | some a, some as => some (a :: as)
    | _, _ => none

/-- A session as serialized by JSON.stringify (field order of the record). -/
def Session.toJson (s : Session) : Json :=
  Json.obj [("id", Json.str s.id),
            ("projectRoot", Json.str s.projectRoot),
            ("model", Json.str s.model),
            ("messages", Json.arr (s.messages.map Message.toJson)),
            ("summary", match s.summary with
                        | some t => Json.str t
                        | none => Json.null),
            ("summaryUpTo", Json.num s.summaryUpTo),
            ("todos", Json.arr (s.todos.map Task.toJson)),
            ("created", Json.num s.created),
            ("updated", Json.num s.updated)]

/-- The nullable summary field read back from a serialized record. -/
def summaryFromJson? : Json → Option (Option String)
  | Json.str t => some (some t)
  | Json.null => some none
  | _ => none

/-- A session read back from a serialized record (`JSON.parse(text) as Session`);
documents not of the record shape decode to `none`. -/
def Session.fromJson? : Json → Option Session
  | Json.obj [("id", Json.str i), ("projectRoot", Json.str pr), ("model", Json.str md),
              ("messages", Json.arr ms), ("summary", sj), ("summaryUpTo", Json.num su),
              ("todos", Json.arr ts), ("created", Json.num cr), ("updated", Json.num up)] =>
    match decodeList Message.fromJson? ms, summaryFromJson? sj, decodeList Task.fromJson? ts with
    | some messages, some summary, some todos =>
      some ⟨i, pr, md, messages, summary, su, todos, cr, up⟩
    | _, _, _ => none
  | _ => none

/-! ## Persistence (src/session/storage.ts)

The durable location is modelled as an association list from absolute path
strings to the JSON documents written there; `Bun.write` replaces the file at
a path wholesale, and removing a file filters it out.  Directories need no
modelling (mkdir -p only ensures writes succeed). -/

/-- The durable file store. -/
abbrev Store : Type := List (String × Json)

/-- Write a document at a path, replacing any previous one. -/
def Store.write (store : Store) (path : String) (v : Json) : Store :=
  (path, v) :: store.filter (fun e => !(e.1 == path))

/-- Read the document at a path. -/
def Store.read (store : Store) (path : String) : Option Json :=
  (store.find? (fun e => e.1 == path)).map (fun e => e.2)

/-- Remove the file at a path (`rm`, a no-op when absent). -/
def Store.remove (store : Store) (path : String) : Store :=
  store.filter (fun e => !(e.1 == path))

/-- SessionStorage.hashPath; `hash` models the sha256 hex digest.
`projectRoot.split('/').pop() || 'default'` falls back when the last segment
is empty. -/
def hashPath (hash : String → String) (projectRoot : String) : String :=
  let safeName :=
    match (projectRoot.splitOn "/").getLast? with
    | some last => if last == "" then "default" else last
    | none => "default"
  safeName ++ "-" ++ (hash projectRoot).take 12

/-- SessionStorage.getSessionDir. -/
def sessionDir (hash : String → String) (sessionsDir projectRoot : String) : String :=
  sessionsDir ++ "/" ++ hashPath hash projectRoot

/-- SessionStorage.getCurrentPath. -/
def currentPath (hash : String → String) (sessionsDir projectRoot : String) : String :=
  sessionDir hash sessionsDir projectRoot ++ "/current.json"

/-- SessionStorage.getArchiveDir. -/
def archiveDir (hash : String → String) (sessionsDir projectRoot : String) : String :=
  sessionDir hash sessionsDir projectRoot ++ "/archive"

/-- SessionStorage.save: overwrite the current record wholesale. -/
def SessionStorage.save (hash : String → String) (sessionsDir : String)
    (store : Store) (s : Session) : Store :=
  Store.write store (currentPath hash sessionsDir s.projectRoot) (Session.toJson s)

/-- SessionStorage.load: read the current record; a missing or unparseable
record is absence (`null`). -/
def SessionStorage.load (hash : String → String) (sessionsDir : String)
    (store : Store) (projectRoot : String) : Option Session :=
  match Store.read store (currentPath hash sessionsDir projectRoot) with
  | some j => Session.fromJson? j
  | none => none

/-- SessionStorage.archive: write the snapshot under
`<archiveDir>/<timestamp>.json` (`tsName` models the cleaned ISO timestamp),
then remove the current record.  `writeOk = false` models `Bun.write`
throwing; the exception propagates before the removal, leaving the store as
it was (`none`). -/
def SessionStorage.archive (hash : String → String) (sessionsDir tsName : String)
    (writeOk : Bool) (store : Store) (s : Session) : Option (Store × String) :=
  if writeOk then
    let apath := archiveDir hash sessionsDir s.projectRoot ++ "/" ++ tsName ++ ".json"
    let store1 := Store.write store apath (Session.toJson s)
    let store2 := Store.remove store1 (currentPath hash sessionsDir s.projectRoot)
    some (store2, apath)
  else none

/-- The metadata entry built by listArchived from a parsed snapshot. -/
def sessionMetadata (s : Session) : SessionMetadata :=
  ⟨s.id, s.projectRoot, s.model, s.messages.length, s.created, s.updated⟩

/-- `p` is an initial segment of `s` (the `<archiveDir>/` part of the glob). -/
def strStartsWith (p s : String) : Bool :=
  p.data.isPrefixOf s.data

/-- `p` is a final segment of `s` (the `.json` part of the glob). -/
def strEndsWith (p s : String) : Bool :=
  p.data.reverse.isPrefixOf s.data.reverse

/-- Insert a metadata entry into a list sorted by `updated` descending. -/
def insertByUpdated (m : SessionMetadata) : List SessionMetadata → List SessionMetadata
  | [] => [m]
  | x :: xs => if x.updated ≤ m.updated then m :: x :: xs else x :: insertByUpdated m xs

/-- `entries.sort((a, b) => b.updated - a.updated)`: sort by `updated`
descending (insertion sort; the claims depend only on membership). -/
def sortByUpdated : List SessionMetadata → List SessionMetadata
  | [] => []
  | x :: xs => insertByUpdated x (sortByUpdated xs)

/-- SessionStorage.listArchived: every parseable `*.json` document under the
archive directory, as metadata, sorted by `updated` descending (unparseable
files are skipped). -/
def SessionStorage.listArchived (hash : String → String) (sessionsDir : String)
    (store : Store) (projectRoot : String) : List SessionMetadata :=
  let adir := archiveDir hash sessionsDir projectRoot
  let entries := store.filter (fun e => strStartsWith (adir ++ "/") e.1 && strEndsWith ".json" e.1)
  sortByUpdated (entries.filterMap (fun e => (Session.fromJson? e.2).map sessionMetadata))

/-! ## SessionManager.archive (src/repl.ts) -/

/-- The session manager's in-memory session paired with the durable store. -/
structure AgentState where
  session : Session
  store : Store

/-- SessionManager.archive: save the current session, write the archive
snapshot and clear the current record, then replace the in-memory session
with a fresh empty one carrying over only project root and model (`freshId`
models `randomUUID()`, `now` models `Date.now()`).  When the snapshot write
throws, the exception propagates: the in-memory session is untouched and the
pair carries `none` instead of the archive path. -/
def SessionManager.archive (hash : String → String) (sessionsDir freshId : String)
    (now : Nat) (tsName : String) (writeOk : Bool) (st : AgentState) :
    AgentState × Option String :=
  let store1 := SessionStorage.save hash sessionsDir st.store st.session
  match SessionStorage.archive hash sessionsDir tsName writeOk store1 st.session with
  | some (store2, apath) =>
    ({ session := createEmptySession st.session.projectRoot st.session.model freshId now
       store := store2 }, some apath)
  | none => ({ session := st.session, store := store1 }, none)

/-! ## Operation sequences of the session manager

The operations a claim ranges over (addMessage, maybeCompress, setModel and
the todo mutations), as a step relation, to state the `summaryUpTo`
invariant. -/

/-- One SessionManager operation on the in-memory session. -/
inductive AgentOp where
  | addMsg (role : Role) (content : String) (t : Nat)
  | compress (digest : List Message → String)
  | switchModel (m : String)
  | todoAdd (content id : String) (t : Nat)
  | todoUpdate (id : String) (status : TaskStatus)
  | todoRemove (id : String)
  | todoClear

/-- Apply one operation to the session. -/
def applyOp : AgentOp → Session → Session
  | AgentOp.addMsg r c t, s => addMessage r c t s
  | AgentOp.compress d, s => (maybeCompress d s).1
  | AgentOp.switchModel m, s => setModel m s
  | AgentOp.todoAdd c i t, s => (addTodo c i t s).1
  | AgentOp.todoUpdate i st, s => (updateTodo i st s).1
  | AgentOp.todoRemove i, s => (removeTodo i s).1
  | AgentOp.todoClear, s => (clearCompletedTodos s).1

/-- Apply a sequence of operations left to right. -/
def applyOps (ops : List AgentOp) (s : Session) : Session :=
  ops.foldl (fun s op => applyOp op s) s

/-- Freshness of an operation's clock reading: `Date.now()` returns a value
at least as large as every timestamp already in the session (the clock does
not run backwards).  Operations that read no clock are unconstrained. -/
def opFresh : AgentOp → Session → Prop
  | AgentOp.addMsg _ _ t, s => s.summaryUpTo ≤ t ∧ ∀ m ∈ s.messages, m.timestamp ≤ t
  | _, _ => True

/-- Every operation of the sequence is fresh for the state it runs in. -/
def FreshSeq : List AgentOp → Session → Prop
  | [], _ => True
  | op :: rest, s => opFresh op s ∧ FreshSeq rest (applyOp op s)

/-- Timestamp consistency of a session: message timestamps are non-decreasing
in append order, and no retained message predates `summaryUpTo`.  This holds
for every session the manager builds with a monotone clock. -/
def timesOk (s : Session) : Prop :=
  s.messages.Pairwise (fun a b => a.timestamp ≤ b.timestamp) ∧
  ∀ m ∈ s.messages, s.summaryUpTo ≤ m.timestamp

/-! ## Concrete evaluation inputs

Closed inputs used by counterexamples and witnesses. -/

/-- A 96004-character message body: 24001 estimated tokens. -/
def bigContent : String := String.mk (List.replicate 96004 'a')

/-- The oldest message of the oversized session. -/
def bigHead : Message := ⟨Role.user, bigContent, 100⟩

/-- Ten short recent messages with increasing timestamps. -/
def smallMsgs : List Message :=
  [⟨Role.assistant, "x", 101⟩, ⟨Role.user, "x", 102⟩, ⟨Role.assistant, "x", 103⟩,
   ⟨Role.user, "x", 104⟩, ⟨Role.assistant, "x", 105⟩, ⟨Role.user, "x", 106⟩,
   ⟨Role.assistant, "x", 107⟩, ⟨Role.user, "x", 108⟩, ⟨Role.assistant, "x", 109⟩,
   ⟨Role.user, "x", 110⟩]

/-- A session whose 11 messages exceed the token threshold. -/
def bigSession : Session :=
  { id := "big"
    projectRoot := "/home/u/proj"
    model := "m1"
    messages := bigHead :: smallMsgs
    summary := none
    summaryUpTo := 0
    todos := []
    created := 100
    updated := 110 }

/-- Model output holding one malformed occurrence (arguments fail to parse)
followed by one well-formed occurrence. -/
def demoText : String :=
  "say \x7b\"name\": \"bash\", \"arguments\": \x7bbroken\x7d\x7d then \x7b\"name\": \"read_file\", \"arguments\": \x7b\"path\": \"a.txt\"\x7d\x7d ok"

/-- A JSON.parse model accepting exactly the well-formed payload of `demoText`. -/
def demoParse : String → Option Unit :=
  fun s => if s == "\x7b\"path\": \"a.txt\"\x7d" then some () else none

/-- Model output holding two well-formed occurrences, `glob` before `bash`. -/
def demoText2 : String :=
  "run \x7b\"name\": \"glob\", \"arguments\": \x7b\"pattern\": \"*.ts\"\x7d\x7d and \x7b\"name\": \"bash\", \"arguments\": \x7b\"command\": \"ls\"\x7d\x7d end"

/-- Model output holding one well-formed `bash` occurrence. -/
def demoText3 : String :=
  "\x7b\"name\": \"bash\", \"arguments\": \x7b\"command\": \"ls\"\x7d\x7d"

/-- A JSON.parse model keeping the raw payload text. -/
def rawParse : String → Option String := fun s => some s

/-- A tool executor that always throws, logging attempted names. -/
def throwingExec : String → String → List String → Except String String × List String :=
  fun name _ log => (Except.error "boom", log ++ [name])

/-- A tool executor that always succeeds, logging executed names. -/
def loggingExec : String → String → List String → Except String String × List String :=
  fun name _ log => (Except.ok ("did " ++ name), log ++ [name])

/-- A small fully concrete session. -/
def demoSession : Session :=
  { id := "old-session"
    projectRoot := "/home/u/proj"
    model := "m1"
    messages := [⟨Role.user, "hi", 1⟩, ⟨Role.assistant, "hello", 2⟩]
    summary := some "earlier"
    summaryUpTo := 1
    todos := [⟨"t1", "fix bug", TaskStatus.pending, 1⟩]
    created := 1
    updated := 2 }

/-- A concrete operation sequence for the monotonicity witness. -/
def demoOps : List AgentOp :=
  [AgentOp.addMsg Role.user "hello" 5, AgentOp.switchModel "m2",
   AgentOp.compress (fun _ => "digest"), AgentOp.todoAdd "task" "t1" 6,
   AgentOp.todoUpdate "t1" TaskStatus.completed]

/-- Messages naming the same file twice, for the fallback-summary witness. -/
def demoMsgs : List Message :=
  [⟨Role.user, "please check src/app.ts and src/app.ts again", 1⟩,
   ⟨Role.assistant, "ok", 2⟩]

/-! ## Helper lemmas: the oversized session -/

/-- The big message body has 96004 characters. -/
theorem bigContent_length : bigContent.length = 96004 := by
  show (List.replicate 96004 'a').length = 96004
  exact List.length_replicate 96004 'a'

/-- Unfolding lemma of the token heuristic. -/
theorem estimateTokens_def (s : String) : estimateTokens s = (s.length + 3) / 4 := rfl

/-- The reduce of estimateMessagesTokens shifts its accumulator. -/
theorem foldl_est_shift (l : List Message) (a : Nat) :
    l.foldl (fun sum m => sum + estimateTokens m.content) a =
      a + l.foldl (fun sum m => sum + estimateTokens m.content) 0 := by
  induction l generalizing a with
  | nil => simp
  | cons m ms ih =>
    rw [List.foldl_cons, List.foldl_cons, ih, ih (0 + estimateTokens m.content)]
    omega

/-- estimateMessagesTokens splits off the head message. -/
theorem estimateMessagesTokens_cons (m : Message) (ms : List Message) :
    estimateMessagesTokens (m :: ms) =
      estimateTokens m.content + estimateMessagesTokens ms := by
  unfold estimateMessagesTokens
  rw [List.foldl_cons, foldl_est_shift]
  omega

/-- The oversized session's estimated token count. -/
theorem bigSession_tokens : estimateMessagesTokens bigSession.messages = 24011 := by
  have hmsgs : bigSession.messages = bigHead :: smallMsgs := rfl
  have hb : bigHead.content = bigContent := rfl
  have h1 : estimateTokens bigHead.content = 24001 := by
    rw [hb, estimateTokens_def, bigContent_length]
  have h2 : estimateMessagesTokens smallMsgs = 10 := by decide
  rw [hmsgs, estimateMessagesTokens_cons, h1, h2]

/-- One `maybeCompress` run on the oversized session compacts exactly the
oldest message, for any digest function. -/
theorem maybeCompress_bigSession (d : List Message → String) :
    maybeCompress d bigSession =
      ({ bigSession with
          summary := some (d [bigHead])
          summaryUpTo := 100
          messages := smallMsgs }, true) := by
  have hne : ¬ estimateMessagesTokens bigSession.messages < CONTEXT_THRESHOLD := by
    rw [bigSession_tokens]
    decide
  simp only [maybeCompress, if_neg hne]
  rfl

/-! ## C1: threshold-triggered compaction -/

/-- C1 counterexample: the claim "sets `summary` to a non-empty text" fails
as stated.  On a session exceeding the threshold with more than 10 messages
and no previous summary, a digest request answered by the empty string makes
`maybeCompress` compact (it returns true) and set `summary` to `some ""`,
which is not a non-empty text. -/
theorem maybeCompress_nonempty_summary_cex :
    CONTEXT_THRESHOLD < estimateMessagesTokens bigSession.messages ∧
    10 < bigSession.messages.length ∧
    (maybeCompress (fun _ => "") bigSession).2 = true ∧
    (maybeCompress (fun _ => "") bigSession).1.summary = some "" := by
  refine ⟨?_, ?_, ?_, ?_⟩
  · rw [bigSession_tokens]
    decide
  · decide
  · rw [maybeCompress_bigSession]
  · rw [maybeCompress_bigSession]

/-- C1 (amended): for every session whose message list exceeds the token
threshold (24000 estimated units, four characters per unit) and has more
than 10 messages, one `maybeCompress` run reports compaction, replaces the
message list with exactly the last 10 messages, sets `summaryUpTo` to the
timestamp of the 11th-from-last message (the last compacted one), and sets
`summary` to the accumulated digest — a text that is non-empty whenever the
digest text is non-empty (the claim's unconditional "non-empty" fails only
when the model answers the digest request with the empty string and no
usable previous summary exists). -/
theorem maybeCompress_compacts_tail (digest : List Message → String) (s : Session)
    (htok : CONTEXT_THRESHOLD < estimateMessagesTokens s.messages)
    (hlen : 10 < s.messages.length) :
    (maybeCompress digest s).2 = true ∧
    (maybeCompress digest s).1.messages = s.messages.drop (s.messages.length - 10) ∧
    (maybeCompress digest s).1.messages.length = 10 ∧
    (∃ m, s.messages[s.messages.length - 11]? = some m ∧
      (maybeCompress digest s).1.summaryUpTo = m.timestamp) ∧
    (∃ t, (maybeCompress digest s).1.summary = some t ∧
      (digest (s.messages.take (s.messages.length - 10)) ≠ "" → t ≠ "")) := by
  have hnotlt : ¬ estimateMessagesTokens s.messages < CONTEXT_THRESHOLD :=
    Nat.not_lt.mpr (Nat.le_of_lt htok)
  have hK : KEEP_RECENT_MESSAGES = 10 := rfl
  have hk0 : s.messages.length - KEEP_RECENT_MESSAGES ≠ 0 := by
    rw [hK]
    omega
  have hnil : s.messages ≠ [] := by
    intro h
    rw [h] at hlen
    simp at hlen
  have hne : ¬ (s.messages.take (s.messages.length - KEEP_RECENT_MESSAGES)).isEmpty = true := by
    rw [List.isEmpty_eq_true, List.take_eq_nil_iff]
    rintro (h | h)
    · exact hk0 h
    · exact hnil h
  have hget : (s.messages.take (s.messages.length - KEEP_RECENT_MESSAGES)).getLast? =
      s.messages[s.messages.length - 11]? := by
    rw [List.getLast?_eq_getElem?, List.length_take]
    have hmin : min (s.messages.length - KEEP_RECENT_MESSAGES) s.messages.length =
        s.messages.length - KEEP_RECENT_MESSAGES := by
      rw [hK]
      omega
    rw [hmin]
    have hlt : s.messages.length - KEEP_RECENT_MESSAGES - 1 <
        s.messages.length - KEEP_RECENT_MESSAGES := by
      rw [hK]
      omega
    rw [List.getElem?_take_of_lt hlt]
    have hidx2 : s.messages.length - KEEP_RECENT_MESSAGES - 1 = s.messages.length - 11 := by
      rw [hK]
      omega
    rw [hidx2]
  have hidx : s.messages.length - 11 < s.messages.length := by omega
  refine ⟨?_, ?_, ?_, ?_, ?_⟩
  · simp only [maybeCompress, if_neg hnotlt, if_neg hne]
  · simp only [maybeCompress, if_neg hnotlt, if_neg hne]
    rw [hK]
  · simp only [maybeCompress, if_neg hnotlt, if_neg hne]
    rw [List.length_drop, hK]
    omega
  · refine ⟨s.messages[s.messages.length - 11], List.getElem?_eq_getElem hidx, ?_⟩
    simp only [maybeCompress, if_neg hnotlt, if_neg hne, hget,
      List.getElem?_eq_getElem hidx]
  · simp only [maybeCompress, if_neg hnotlt, if_neg hne]
    rw [hK]
    cases hsum : s.summary with
    | none =>
      dsimp only
      exact ⟨digest (s.messages.take (s.messages.length - 10)), rfl, fun h => h⟩
    | some old =>
      dsimp only
      by_cases hold : (old == "") = true
      · rw [if_pos hold]
        exact ⟨digest (s.messages.take (s.messages.length - 10)), rfl, fun h => h⟩
      · rw [if_neg hold]
        refine ⟨old ++ "\n\n---\n\n" ++ digest (s.messages.take (s.messages.length - 10)),
          rfl, fun _ hcontra => ?_⟩
        have hlc := congrArg String.length hcontra
        rw [String.length_append, String.length_append] at hlc
        have h7 : ("\n\n---\n\n" : String).length = 7 := rfl
        have hz : ("" : String).length = 0 := rfl
        rw [h7, hz] at hlc
        omega

/-- C1 amended-claim witness: on the oversized session with the constant
digest "S", `maybeCompress` compacts as described. -/
theorem maybeCompress_compacts_tail_witness :
    CONTEXT_THRESHOLD < estimateMessagesTokens bigSession.messages ∧
    10 < bigSession.messages.length ∧
    ((maybeCompress (fun _ => "S") bigSession).2 = true ∧
     (maybeCompress (fun _ => "S") bigSession).1.messages =
       bigSession.messages.drop (bigSession.messages.length - 10) ∧
     (maybeCompress (fun _ => "S") bigSession).1.messages.length = 10 ∧
     (∃ m, bigSession.messages[bigSession.messages.length - 11]? = some m ∧
       (maybeCompress (fun _ => "S") bigSession).1.summaryUpTo = m.timestamp) ∧
     (∃ t, (maybeCompress (fun _ => "S") bigSession).1.summary = some t ∧
       ((fun (_ : List Message) => "S")
          (bigSession.messages.take (bigSession.messages.length - 10)) ≠ "" → t ≠ ""))) :=
  ⟨by rw [bigSession_tokens]; decide, by decide,
   maybeCompress_compacts_tail (fun _ => "S") bigSession
     (by rw [bigSession_tokens]; decide) (by decide)⟩

/-! ## C6: idempotence of the continuity check -/

/-- C6: if a `maybeCompress` run compacts, an immediately following run with
no messages added in between is a no-op: it returns false and leaves the
whole session (messages, summary, summaryUpTo) unchanged. -/
theorem maybeCompress_idempotent (d1 d2 : List Message → String) (s : Session)
    (h : (maybeCompress d1 s).2 = true) :
    maybeCompress d2 (maybeCompress d1 s).1 = ((maybeCompress d1 s).1, false) := by
  by_cases h1 : estimateMessagesTokens s.messages < CONTEXT_THRESHOLD
  · have hfix : maybeCompress d1 s = (s, false) := by
      simp only [maybeCompress, if_pos h1]
    rw [hfix] at h
    simp at h
  by_cases h2 : (s.messages.take (s.messages.length - KEEP_RECENT_MESSAGES)).isEmpty = true
  · have hfix : maybeCompress d1 s = (s, false) := by
      simp only [maybeCompress, if_neg h1, if_pos h2]
    rw [hfix] at h
    simp at h
  have hk0 : s.messages.length - KEEP_RECENT_MESSAGES ≠ 0 := by
    rw [List.isEmpty_eq_true, List.take_eq_nil_iff] at h2
    push_neg at h2
    exact h2.1
  have hmsgs : (maybeCompress d1 s).1.messages =
      s.messages.drop (s.messages.length - KEEP_RECENT_MESSAGES) := by
    simp only [maybeCompress, if_neg h1, if_neg h2]
  have hlen10 : (maybeCompress d1 s).1.messages.length = KEEP_RECENT_MESSAGES := by
    rw [hmsgs, List.length_drop]
    omega
  generalize (maybeCompress d1 s).1 = s1 at hlen10 ⊢
  by_cases h3 : estimateMessagesTokens s1.messages < CONTEXT_THRESHOLD
  · simp only [maybeCompress, if_pos h3]
  · simp only [maybeCompress, if_neg h3, hlen10, Nat.sub_self, List.take_zero,
      List.isEmpty_nil]
    simp

/-- C6 witness: the oversized session compacts on the first run and the
second run is a no-op. -/
theorem maybeCompress_idempotent_witness :
    (maybeCompress (fun _ => "first") bigSession).2 = true ∧
    maybeCompress (fun _ => "second") (maybeCompress (fun _ => "first") bigSession).1 =
      ((maybeCompress (fun _ => "first") bigSession).1, false) :=
  ⟨by rw [maybeCompress_bigSession],
   maybeCompress_idempotent (fun _ => "first") (fun _ => "second") bigSession
     (by rw [maybeCompress_bigSession])⟩


/-! ## C8: summaryUpTo is monotonically non-decreasing -/

/-- Sessions agreeing on messages and summaryUpTo share `timesOk`. -/
theorem timesOk_same {s s' : Session} (hm : s'.messages = s.messages)
    (hu : s'.summaryUpTo = s.summaryUpTo) (h : timesOk s) : timesOk s' := by
  unfold timesOk at h ⊢
  rw [hm, hu]
  exact h

/-- `maybeCompress` preserves timestamp consistency and never decreases
`summaryUpTo`: when it compacts, the new cutoff is the timestamp of the last
compacted message, which bounds the previous cutoff from above. -/
theorem maybeCompress_timesOk (d : List Message → String) (s : Session)
    (hs : timesOk s) :
    timesOk (maybeCompress d s).1 ∧
    s.summaryUpTo ≤ (maybeCompress d s).1.summaryUpTo := by
  by_cases h1 : estimateMessagesTokens s.messages < CONTEXT_THRESHOLD
  · have hfix : maybeCompress d s = (s, false) := by
      simp only [maybeCompress, if_pos h1]
    rw [hfix]
    exact ⟨hs, Nat.le_refl _⟩
  by_cases h2 : (s.messages.take (s.messages.length - KEEP_RECENT_MESSAGES)).isEmpty = true
  · have hfix : maybeCompress d s = (s, false) := by
      simp only [maybeCompress, if_neg h1, if_pos h2]
    rw [hfix]
    exact ⟨hs, Nat.le_refl _⟩
  have hnil : ¬ s.messages.take (s.messages.length - KEEP_RECENT_MESSAGES) = [] := by
    rw [List.isEmpty_eq_true] at h2
    exact h2
  obtain ⟨m, hm⟩ : ∃ m,
      (s.messages.take (s.messages.length - KEEP_RECENT_MESSAGES)).getLast? = some m := by
    cases hg : (s.messages.take (s.messages.length - KEEP_RECENT_MESSAGES)).getLast? with
    | none => exact absurd (List.getLast?_eq_none_iff.mp hg) hnil
    | some m => exact ⟨m, rfl⟩
  have hfm : (maybeCompress d s).1.messages =
      s.messages.drop (s.messages.length - KEEP_RECENT_MESSAGES) := by
    simp only [maybeCompress, if_neg h1, if_neg h2]
  have hfu : (maybeCompress d s).1.summaryUpTo = m.timestamp := by
    simp only [maybeCompress, if_neg h1, if_neg h2, hm]
  have hmem : m ∈ s.messages := List.mem_of_mem_take (List.mem_of_getLast?_eq_some hm)
  have hsplit : ((s.messages.take (s.messages.length - KEEP_RECENT_MESSAGES)) ++
      (s.messages.drop (s.messages.length - KEEP_RECENT_MESSAGES))).Pairwise
        (fun a b => a.timestamp ≤ b.timestamp) := by
    rw [List.take_append_drop]
    exact hs.1
  have hcross := (List.pairwise_append.mp hsplit).2.2
  constructor
  · constructor
    · rw [hfm]
      exact List.Pairwise.sublist (List.drop_sublist _ _) hs.1
    · intro m' hm'
      rw [hfm] at hm'
      rw [hfu]
      exact hcross m (List.mem_of_getLast?_eq_some hm) m' hm'
  · rw [hfu]
    exact hs.2 m hmem

/-- `addMessage` with a fresh clock reading preserves timestamp consistency
and leaves `summaryUpTo` unchanged. -/
theorem addMessage_timesOk (r : Role) (c : String) (t : Nat) (s : Session)
    (hs : timesOk s) (h1 : s.summaryUpTo ≤ t) (h2 : ∀ m ∈ s.messages, m.timestamp ≤ t) :
    timesOk (addMessage r c t s) ∧ s.summaryUpTo ≤ (addMessage r c t s).summaryUpTo := by
  obtain ⟨hp, hup⟩ := hs
  refine ⟨⟨?_, ?_⟩, Nat.le_refl _⟩
  · show (s.messages ++ [(⟨r, c, t⟩ : Message)]).Pairwise (fun a b => a.timestamp ≤ b.timestamp)
    rw [List.pairwise_append]
    refine ⟨hp, List.pairwise_singleton _ _, ?_⟩
    intro a ha b hb
    rw [List.mem_singleton] at hb
    subst hb
    exact h2 a ha
  · intro m' hm'
    show s.summaryUpTo ≤ m'.timestamp
    have hm2 : m' ∈ s.messages ++ [⟨r, c, t⟩] := hm'
    rw [List.mem_append, List.mem_singleton] at hm2
    rcases hm2 with hm2 | hm2
    · exact hup m' hm2
    · subst hm2
      exact h1

/-- Every listed operation, run with a fresh clock, preserves timestamp
consistency and never decreases `summaryUpTo`. -/
theorem applyOp_mono (op : AgentOp) (s : Session) (hs : timesOk s) (hf : opFresh op s) :
    timesOk (applyOp op s) ∧ s.summaryUpTo ≤ (applyOp op s).summaryUpTo := by
  cases op with
  | addMsg r c t => exact addMessage_timesOk r c t s hs hf.1 hf.2
  | compress d => exact maybeCompress_timesOk d s hs
  | switchModel m => exact ⟨timesOk_same rfl rfl hs, Nat.le_refl _⟩
  | todoAdd c i t => exact ⟨timesOk_same rfl rfl hs, Nat.le_refl _⟩
  | todoUpdate i st => exact ⟨timesOk_same rfl rfl hs, Nat.le_refl _⟩
  | todoRemove i =>
    have hfields : (removeTodo i s).1.messages = s.messages ∧
        (removeTodo i s).1.summaryUpTo = s.summaryUpTo := by
      unfold removeTodo
      split <;> exact ⟨rfl, rfl⟩
    refine ⟨timesOk_same hfields.1 hfields.2 hs, ?_⟩
    show s.summaryUpTo ≤ (removeTodo i s).1.summaryUpTo
    rw [hfields.2]
  | todoClear => exact ⟨timesOk_same rfl rfl hs, Nat.le_refl _⟩

/-- C8: `summaryUpTo` is monotonically non-decreasing.  No sequence of
session-manager operations (addMessage, maybeCompress, setModel, todo
mutations) run on a timestamp-consistent session with a monotone clock ever
decreases `summaryUpTo`; `maybeCompress` only advances it to the timestamp of
the last compacted message, which is at least the previous value. -/
theorem summaryUpTo_monotone (ops : List AgentOp) (s : Session)
    (hs : timesOk s) (hf : FreshSeq ops s) :
    s.summaryUpTo ≤ (applyOps ops s).summaryUpTo := by
  induction ops generalizing s with
  | nil => exact Nat.le_refl _
  | cons op rest ih =>
    obtain ⟨h1, h2⟩ := hf
    have step := applyOp_mono op s hs h1
    have tail := ih (applyOp op s) step.1 h2
    exact Nat.le_trans step.2 tail

/-- C8 witness: a concrete operation sequence on a fresh session. -/
theorem summaryUpTo_monotone_witness :
    timesOk (createEmptySession "/p" "m" "id0" 0) ∧
    FreshSeq demoOps (createEmptySession "/p" "m" "id0" 0) ∧
    (createEmptySession "/p" "m" "id0" 0).summaryUpTo ≤
      (applyOps demoOps (createEmptySession "/p" "m" "id0" 0)).summaryUpTo :=
  ⟨by simp [timesOk, createEmptySession],
   by simp [demoOps, FreshSeq, opFresh, createEmptySession],
   summaryUpTo_monotone demoOps (createEmptySession "/p" "m" "id0" 0)
     (by simp [timesOk, createEmptySession])
     (by simp [demoOps, FreshSeq, opFresh, createEmptySession])⟩

/-! ## C9: deterministic fallback summary -/

/-- Elements of the deduplicated list come from the original list. -/
theorem dedupFirst_subset : ∀ (l : List String), ∀ a ∈ dedupFirst l, a ∈ l := by
  intro l
  induction l using dedupFirst.induct with
  | case1 =>
    intro a ha
    simp [dedupFirst] at ha
  | case2 x xs ih =>
    intro a ha
    rw [dedupFirst] at ha
    rcases List.mem_cons.mp ha with h | h
    · exact h ▸ List.mem_cons_self _ _
    · exact List.mem_cons_of_mem _ (List.mem_of_mem_filter (ih a h))

/-- Deduplication yields a list with no duplicates. -/
theorem dedupFirst_nodup : ∀ l : List String, (dedupFirst l).Nodup := by
  intro l
  induction l using dedupFirst.induct with
  | case1 => simp [dedupFirst]
  | case2 x xs ih =>
    rw [dedupFirst, List.nodup_cons]
    refine ⟨?_, ih⟩
    intro hmem
    have h1 := dedupFirst_subset _ x hmem
    have h2 := List.of_mem_filter h1
    simp at h2

/-- C9: when the digest request to the model backend fails, `summarize`
never propagates the error: it returns the deterministic, locally computed
fallback summary, whose text opens with the counts of user and assistant
messages, and whose file-path extraction is capped to at most 10 distinct
paths. -/
theorem summarize_fallback_deterministic (backend : String → Except String String)
    (messages : List Message) (e : String)
    (hb : backend (summarizePrompt messages) = Except.error e) :
    Summarizer.summarize backend messages = fallbackSummary messages ∧
    (∃ rest, fallbackSummary messages =
      "Previous conversation: " ++
        toString (messages.filter (fun m => m.role == Role.user)).length ++
      " user messages, " ++
        toString (messages.filter (fun m => m.role == Role.assistant)).length ++
      " assistant responses." ++ rest) ∧
    ((dedupFirst (pathMatches (String.intercalate " "
        (messages.map (fun m => m.content))))).take 10).length ≤ 10 ∧
    ((dedupFirst (pathMatches (String.intercalate " "
        (messages.map (fun m => m.content))))).take 10).Nodup := by
  refine ⟨?_, ?_, ?_, ?_⟩
  · unfold Summarizer.summarize
    rw [hb]
  · simp only [fallbackSummary]
    by_cases hp : ((dedupFirst (pathMatches (String.intercalate " "
        (messages.map (fun m => m.content))))).take 10).length > 0
    · rw [if_pos hp]
      refine ⟨" Files discussed: " ++ (String.intercalate ", "
        ((dedupFirst (pathMatches (String.intercalate " "
          (messages.map (fun m => m.content))))).take 10) ++ "."), ?_⟩
      rw [String.append_assoc, String.append_assoc]
    · rw [if_neg hp]
      exact ⟨"", (String.append_empty _).symm⟩
  · rw [List.length_take]
    exact Nat.min_le_left _ _
  · exact List.Nodup.sublist (List.take_sublist _ _) (dedupFirst_nodup _)

/-- C9 witness: a failing backend on concrete messages yields the fallback,
and its path list is duplicate-free. -/
theorem summarize_fallback_witness :
    Summarizer.summarize (fun _ => Except.error "backend down") demoMsgs =
      fallbackSummary demoMsgs ∧
    ((dedupFirst (pathMatches (String.intercalate " "
        (demoMsgs.map (fun m => m.content))))).take 10).Nodup :=
  ⟨(summarize_fallback_deterministic (fun _ => Except.error "backend down") demoMsgs
      "backend down" rfl).1,
   (summarize_fallback_deterministic (fun _ => Except.error "backend down") demoMsgs
      "backend down" rfl).2.2.2⟩

/-! ## C2: a malformed occurrence is skipped, not fatal -/

/-- C2: for every model-output text in which the primary grammar finds one
occurrence whose arguments payload fails to parse followed by one
well-formed occurrence naming a registered capability, extraction returns
exactly the well-formed request: the parse failure silently skips its
occurrence and does not abort extraction of subsequent occurrences. -/
theorem parseToolCalls_skips_malformed {J : Type} (jparse : String → Option J)
    (text : String) (n1 a1 n2 a2 : String) (args : J)
    (hscan : findJsonMatches text = [(n1, a1), (n2, a2)])
    (h1 : jparse a1 = none)
    (h2 : jparse a2 = some args)
    (hreg : (getToolByName n2).isSome = true) :
    parseToolCalls jparse text = [⟨n2, args⟩] := by
  unfold parseToolCalls
  rw [hscan]
  simp [h1, h2, hreg]

/-- C2 witness: a malformed `bash` occurrence followed by a well-formed
`read_file` occurrence extracts exactly the `read_file` call. -/
theorem parseToolCalls_skips_malformed_witness :
    findJsonMatches demoText =
      [("bash", "\x7bbroken\x7d"), ("read_file", "\x7b\"path\": \"a.txt\"\x7d")] ∧
    demoParse "\x7bbroken\x7d" = none ∧
    parseToolCalls demoParse demoText = [⟨"read_file", ()⟩] :=
  ⟨by decide, by decide,
   parseToolCalls_skips_malformed demoParse demoText "bash" "\x7bbroken\x7d"
     "read_file" "\x7b\"path\": \"a.txt\"\x7d" () (by decide) (by decide) (by decide)
     (by decide)⟩

/-! ## C7: textual order is extraction and execution order -/

/-- C7: when the primary grammar finds two occurrences, extraction returns
them in left-to-right textual order, and the tool round executes them one at
a time in exactly that order: the second execution receives the state
produced by the first (awaited to completion), and the result messages are
appended in the same order. -/
theorem toolCalls_textual_order {J St : Type} (jparse : String → Option J)
    (text : String) (n1 a1 n2 a2 : String) (g1 g2 : J)
    (exec : String → J → St → Except String String × St) (st : St)
    (hscan : findJsonMatches text = [(n1, a1), (n2, a2)])
    (h1 : jparse a1 = some g1) (h2 : jparse a2 = some g2)
    (hr1 : (getToolByName n1).isSome = true)
    (hr2 : (getToolByName n2).isSome = true) :
    parseToolCalls jparse text = [⟨n1, g1⟩, ⟨n2, g2⟩] ∧
    runToolCalls exec (parseToolCalls jparse text) st =
      ((execOne exec ⟨n2, g2⟩ (execOne exec ⟨n1, g1⟩ st).2).2,
       [toolResultMessage n1 (execOne exec ⟨n1, g1⟩ st).1,
        toolResultMessage n2
          (execOne exec ⟨n2, g2⟩ (execOne exec ⟨n1, g1⟩ st).2).1]) := by
  have hcalls : parseToolCalls jparse text = [⟨n1, g1⟩, ⟨n2, g2⟩] := by
    unfold parseToolCalls
    rw [hscan]
    simp [h1, h2, hr1, hr2]
  refine ⟨hcalls, ?_⟩
  rw [hcalls]
  simp only [runToolCalls]

/-- C7 witness: two concrete calls, `glob` textually before `bash`, are
extracted and executed in that order with the state threaded. -/
theorem toolCalls_textual_order_witness :
    parseToolCalls rawParse demoText2 =
      [⟨"glob", "\x7b\"pattern\": \"*.ts\"\x7d"⟩,
       ⟨"bash", "\x7b\"command\": \"ls\"\x7d"⟩] ∧
    runToolCalls loggingExec (parseToolCalls rawParse demoText2) [] =
      ((execOne loggingExec ⟨"bash", "\x7b\"command\": \"ls\"\x7d"⟩
          (execOne loggingExec ⟨"glob", "\x7b\"pattern\": \"*.ts\"\x7d"⟩ []).2).2,
       [toolResultMessage "glob"
          (execOne loggingExec ⟨"glob", "\x7b\"pattern\": \"*.ts\"\x7d"⟩ []).1,
        toolResultMessage "bash"
          (execOne loggingExec ⟨"bash", "\x7b\"command\": \"ls\"\x7d"⟩
            (execOne loggingExec ⟨"glob", "\x7b\"pattern\": \"*.ts\"\x7d"⟩ []).2).1]) :=
  toolCalls_textual_order rawParse demoText2 "glob" "\x7b\"pattern\": \"*.ts\"\x7d"
    "bash" "\x7b\"command\": \"ls\"\x7d" "\x7b\"pattern\": \"*.ts\"\x7d"
    "\x7b\"command\": \"ls\"\x7d" loggingExec [] (by decide) rfl rfl (by decide) (by decide)

/-! ## C3: a throwing capability is converted to an error result -/

/-- C3: when the single extracted call's capability execution throws, the
chat loop catches the error, appends a tool-result message whose text
carries the error indicator `"Error executing <name>: ..."` right after the
assistant message, and proceeds to request a further model round (the
recursive `chatLoop` call on the remaining responses) instead of
terminating. -/
theorem chat_tool_error_recovers {J St : Type}
    (exec : String → J → St → Except String String × St) (jparse : String → Option J)
    (r : String) (rest : List String) (msgs : List ChatMessage) (st st' : St)
    (tc : ParsedToolCall J) (tool : Tool) (e : String)
    (hcalls : parseToolCalls jparse r = [tc])
    (htool : getToolByName tc.name = some tool)
    (hexec : exec tc.name tc.arguments st = (Except.error e, st')) :
    chatLoop exec jparse (r :: rest) msgs st =
      chatLoop exec jparse rest
        ((msgs ++ [⟨Role.assistant, r⟩]) ++
         [⟨Role.user, "Tool result for " ++ tc.name ++ ":\n" ++
           ("Error executing " ++ tc.name ++ ": " ++ e)⟩]) st' := by
  have hrun : runToolCalls exec [tc] st =
      (st', [⟨Role.user, "Tool result for " ++ tc.name ++ ":\n" ++
        ("Error executing " ++ tc.name ++ ": " ++ e)⟩]) := by
    simp only [runToolCalls, execOne, htool, hexec, toolResultMessage]
  simp only [chatLoop, hcalls, List.isEmpty_cons, hrun]
  simp

/-- C3 witness: a concrete `bash` call whose executor throws "boom" produces
the error-indicator result message and the loop moves on to the next round. -/
theorem chat_tool_error_recovers_witness :
    chatLoop throwingExec rawParse [demoText3] [] [] =
      chatLoop throwingExec rawParse []
        (([] ++ [⟨Role.assistant, demoText3⟩]) ++
         [⟨Role.user, "Tool result for " ++ "bash" ++ ":\n" ++
           ("Error executing " ++ "bash" ++ ": " ++ "boom")⟩]) ([] ++ ["bash"]) :=
  chat_tool_error_recovers throwingExec rawParse demoText3 [] [] [] ([] ++ ["bash"])
    ⟨"bash", "\x7b\"command\": \"ls\"\x7d"⟩ ⟨"bash"⟩ "boom" (by decide) (by decide) rfl

/-! ## C10: extracted calls always name registered tools -/

/-- The fallback alternation only produces names of registered tools. -/
theorem matchAltName_registered {l : List Char} {n : String} {r : List Char}
    (h : matchAltName l = some (n, r)) : (getToolByName n).isSome = true := by
  unfold matchAltName at h
  split_ifs at h <;>
    simp only [Option.some.injEq, Prod.mk.injEq] at h <;>
    obtain ⟨hn, -⟩ := h <;>
    subst hn <;>
    decide

/-- A fallback-grammar match only produces names of registered tools. -/
theorem fbMatchAt_registered {l : List Char} {n a : String} {r : List Char}
    (h : fbMatchAt l = some (n, a, r)) : (getToolByName n).isSome = true := by
  unfold fbMatchAt at h
  split at h
  · exact absurd h (by simp)
  · rename_i name l1 halt
    split at h
    · exact absurd h (by simp)
    · split at h
      · exact absurd h (by simp)
      · split at h
        · exact absurd h (by simp)
        · split at h
          · exact absurd h (by simp)
          · simp only [Option.some.injEq, Prod.mk.injEq] at h
            obtain ⟨hn, -⟩ := h
            subst hn
            exact matchAltName_registered halt

/-- Every occurrence that the fallback scanner returns names a registered
tool. -/
theorem scanFunc_registered : ∀ (fuel : Nat) (prev : Option Char) (l : List Char)
    (n a : String), (n, a) ∈ scanFunc fuel prev l → (getToolByName n).isSome = true := by
  intro fuel
  induction fuel with
  | zero =>
    intro prev l n a h
    simp [scanFunc] at h
  | succ k ih =>
    intro prev l n a h
    cases l with
    | nil => simp [scanFunc] at h
    | cons c cs =>
      simp only [scanFunc] at h
      split at h
      · split at h
        · rename_i n2 a2 rest2 hfb
          rcases List.mem_cons.mp h with hh | hh
          · rw [Prod.mk.injEq] at hh
            obtain ⟨hn, -⟩ := hh
            subst hn
            exact fbMatchAt_registered hfb
          · exact ih _ _ _ _ hh
        · exact ih _ _ _ _ h
      · exact ih _ _ _ _ h

/-- C10: every operation request returned by the extractor — through the
primary JSON grammar (guarded by the registry lookup) or the fallback
function-call grammar (whose alternation is a subset of the registry) —
names a registered capability, so the "Unknown tool" branch of the chat
loop's `execOne` is unreachable for extracted calls. -/
theorem parseToolCalls_registered {J : Type} (jparse : String → Option J)
    (text : String) (tc : ParsedToolCall J)
    (htc : tc ∈ parseToolCalls jparse text) :
    (getToolByName tc.name).isSome = true := by
  simp only [parseToolCalls] at htc
  split at htc
  · obtain ⟨⟨n, a⟩, hmem, hg⟩ := List.mem_filterMap.mp htc
    dsimp only at hg
    split at hg
    · rename_i args hj
      simp only [Option.some.injEq] at hg
      subst hg
      unfold findFuncMatches at hmem
      exact scanFunc_registered _ _ _ _ _ hmem
    · exact absurd hg (by simp)
  · obtain ⟨⟨n, a⟩, hmem, hg⟩ := List.mem_filterMap.mp htc
    dsimp only at hg
    split at hg
    · rename_i args hj
      split at hg
      · rename_i hreg
        simp only [Option.some.injEq] at hg
        subst hg
        exact hreg
      · exact absurd hg (by simp)
    · exact absurd hg (by simp)

/-- C10 witness: a concretely extracted call names a registered tool. -/
theorem parseToolCalls_registered_witness :
    (⟨"glob", "\x7b\"pattern\": \"*.ts\"\x7d"⟩ : ParsedToolCall String) ∈
      parseToolCalls rawParse demoText2 ∧
    (getToolByName "glob").isSome = true :=
  ⟨by decide,
   parseToolCalls_registered rawParse demoText2
     ⟨"glob", "\x7b\"pattern\": \"*.ts\"\x7d"⟩ (by decide)⟩

/-! ## C4: save / load round-trip -/

/-- Role strings decode back. -/
theorem roleOfString_roleToString (r : Role) :
    roleOfString (roleToString r) = some r := by
  cases r <;> rfl

/-- Status strings decode back. -/
theorem statusOfString_statusToString (t : TaskStatus) :
    statusOfString (statusToString t) = some t := by
  cases t <;> rfl

/-- Serialized messages decode back. -/
theorem message_fromJson_toJson (m : Message) :
    Message.fromJson? (Message.toJson m) = some m := by
  cases m with
  | mk role content timestamp =>
    simp [Message.toJson, Message.fromJson?, roleOfString_roleToString]

/-- Serialized tasks decode back. -/
theorem task_fromJson_toJson (t : Task) :
    Task.fromJson? (Task.toJson t) = some t := by
  cases t with
  | mk id content status created =>
    simp [Task.toJson, Task.fromJson?, statusOfString_statusToString]

/-- Arrays of faithfully encoded elements decode back. -/
theorem decodeList_map {α : Type} (enc : α → Json) (dec : Json → Option α)
    (h : ∀ a, dec (enc a) = some a) :
    ∀ l : List α, decodeList dec (l.map enc) = some l := by
  intro l
  induction l with
  | nil => rfl
  | cons a as ih => simp [decodeList, h, ih]

/-- A serialized session decodes back to an equal session. -/
theorem session_fromJson_toJson (s : Session) :
    Session.fromJson? (Session.toJson s) = some s := by
  cases s with
  | mk id pr md msgs summary su todos cr up =>
    cases summary with
    | none =>
      simp [Session.toJson, Session.fromJson?, summaryFromJson?,
        decodeList_map Message.toJson Message.fromJson? message_fromJson_toJson,
        decodeList_map Task.toJson Task.fromJson? task_fromJson_toJson]
    | some t =>
      simp [Session.toJson, Session.fromJson?, summaryFromJson?,
        decodeList_map Message.toJson Message.fromJson? message_fromJson_toJson,
        decodeList_map Task.toJson Task.fromJson? task_fromJson_toJson]

/-- Reading the path just written yields the written document. -/
theorem Store.read_write_same (store : Store) (path : String) (v : Json) :
    Store.read (Store.write store path v) path = some v := by
  unfold Store.read Store.write
  rw [List.find?_cons_of_pos _ (by simp)]
  rfl

/-- Saving then loading for the same project root reproduces the session. -/
theorem load_save_eq (hash : String → String) (sessionsDir : String)
    (store : Store) (s : Session) :
    SessionStorage.load hash sessionsDir
      (SessionStorage.save hash sessionsDir store s) s.projectRoot = some s := by
  unfold SessionStorage.load SessionStorage.save
  rw [Store.read_write_same]
  exact session_fromJson_toJson s

/-- C4: for every session and every prior store content, `save` followed by
`load` for the same project root reproduces an equal session — same id,
projectRoot, model, messages, summary, summaryUpTo, todos, created and
updated fields (the paths agree because the key derivation is a function of
the project root, and the serialized record decodes to an equal value). -/
theorem storage_save_load_roundtrip (hash : String → String) (sessionsDir : String)
    (store : Store) (s : Session) :
    SessionStorage.load hash sessionsDir
      (SessionStorage.save hash sessionsDir store s) s.projectRoot = some s :=
  load_save_eq hash sessionsDir store s

/-! ## C5: archive atomicity -/

/-- The archive snapshot path differs from the current-record path. -/
theorem archivePath_ne_currentPath (hash : String → String)
    (sessionsDir projectRoot tsName : String) :
    ¬ (archiveDir hash sessionsDir projectRoot ++ "/" ++ tsName ++ ".json" =
       currentPath hash sessionsDir projectRoot) := by
  intro h
  unfold archiveDir currentPath at h
  generalize sessionDir hash sessionsDir projectRoot = S at h
  have hd := congrArg String.data h
  simp only [String.data_append, List.append_assoc, List.append_cancel_left_eq] at hd
  simp at hd

/-- The entry just written is in the store. -/
theorem Store.mem_write_self (store : Store) (path : String) (v : Json) :
    (path, v) ∈ Store.write store path v :=
  List.mem_cons_self _ _

/-- Removing another path keeps an entry. -/
theorem Store.mem_remove {store : Store} {e : String × Json} {path : String}
    (he : e ∈ store) (hne : ¬ e.1 = path) : e ∈ Store.remove store path := by
  unfold Store.remove
  rw [List.mem_filter]
  exact ⟨he, by simp [hne]⟩

/-- Membership through the descending insertion. -/
theorem mem_insertByUpdated {a m : SessionMetadata} {l : List SessionMetadata} :
    a ∈ insertByUpdated m l ↔ a = m ∨ a ∈ l := by
  induction l with
  | nil => simp [insertByUpdated]
  | cons x xs ih =>
    unfold insertByUpdated
    split
    · simp [List.mem_cons]
    · simp only [List.mem_cons, ih]
      tauto

/-- Sorting by `updated` preserves membership. -/
theorem mem_sortByUpdated {a : SessionMetadata} {l : List SessionMetadata} :
    a ∈ sortByUpdated l ↔ a ∈ l := by
  induction l with
  | nil => simp [sortByUpdated]
  | cons x xs ih => simp [sortByUpdated, mem_insertByUpdated, ih]

/-- A list is a prefix of itself extended. -/
theorem isPrefixOf_append_self : ∀ (l t : List Char), l.isPrefixOf (l ++ t) = true := by
  intro l t
  induction l with
  | nil => simp
  | cons c cs ih => simp [List.isPrefixOf, ih]

/-- `strStartsWith` holds on appended extensions. -/
theorem strStartsWith_append (p q : String) : strStartsWith p (p ++ q) = true := by
  unfold strStartsWith
  rw [String.data_append]
  exact isPrefixOf_append_self _ _

/-- `strEndsWith` holds on appended extensions. -/
theorem strEndsWith_append (q p : String) : strEndsWith p (q ++ p) = true := by
  unfold strEndsWith
  rw [String.data_append, List.reverse_append]
  exact isPrefixOf_append_self _ _

/-- A stored snapshot at its archive path appears in `listArchived`. -/
theorem listArchived_mem (hash : String → String) (sessionsDir : String)
    (store : Store) (s0 : Session) (projectRoot tsName : String)
    (hmem : (archiveDir hash sessionsDir projectRoot ++ "/" ++ tsName ++ ".json",
             Session.toJson s0) ∈ store) :
    sessionMetadata s0 ∈ SessionStorage.listArchived hash sessionsDir store projectRoot := by
  unfold SessionStorage.listArchived
  rw [mem_sortByUpdated, List.mem_filterMap]
  refine ⟨(archiveDir hash sessionsDir projectRoot ++ "/" ++ tsName ++ ".json",
    Session.toJson s0), ?_, ?_⟩
  · rw [List.mem_filter]
    refine ⟨hmem, ?_⟩
    have h1 : strStartsWith (archiveDir hash sessionsDir projectRoot ++ "/")
        (archiveDir hash sessionsDir projectRoot ++ "/" ++ tsName ++ ".json") = true := by
      rw [String.append_assoc]
      exact strStartsWith_append _ _
    have h2 : strEndsWith ".json"
        (archiveDir hash sessionsDir projectRoot ++ "/" ++ tsName ++ ".json") = true :=
      strEndsWith_append _ _
    rw [h1, h2]
    rfl
  · rw [session_fromJson_toJson]
    rfl

/-- The store after a successful archive: snapshot written, current removed. -/
theorem archive_store_eq (hash : String → String) (sessionsDir freshId tsName : String)
    (now : Nat) (st : AgentState) :
    (SessionManager.archive hash sessionsDir freshId now tsName true st).1.store =
      Store.remove
        (Store.write (SessionStorage.save hash sessionsDir st.store st.session)
          (archiveDir hash sessionsDir st.session.projectRoot ++ "/" ++ tsName ++ ".json")
          (Session.toJson st.session))
        (currentPath hash sessionsDir st.session.projectRoot) := by
  simp only [SessionManager.archive, SessionStorage.archive, if_true]

/-- The in-memory session after a successful archive is the fresh empty one. -/
theorem archive_session_eq (hash : String → String) (sessionsDir freshId tsName : String)
    (now : Nat) (st : AgentState) :
    (SessionManager.archive hash sessionsDir freshId now tsName true st).1.session =
      createEmptySession st.session.projectRoot st.session.model freshId now := by
  simp only [SessionManager.archive, SessionStorage.archive, if_true]

/-- A successful archive returns the snapshot path. -/
theorem archive_path_eq (hash : String → String) (sessionsDir freshId tsName : String)
    (now : Nat) (st : AgentState) :
    (SessionManager.archive hash sessionsDir freshId now tsName true st).2 =
      some (archiveDir hash sessionsDir st.session.projectRoot ++ "/" ++ tsName ++ ".json") := by
  simp only [SessionManager.archive, SessionStorage.archive, if_true]

/-- A failed snapshot write leaves the in-memory session untouched. -/
theorem archive_fail_session_eq (hash : String → String) (sessionsDir freshId tsName : String)
    (now : Nat) (st : AgentState) :
    (SessionManager.archive hash sessionsDir freshId now tsName false st).1.session =
      st.session := by
  simp only [SessionManager.archive, SessionStorage.archive, Bool.false_eq_true, if_false]

/-- A failed snapshot write returns no archive path. -/
theorem archive_fail_path_eq (hash : String → String) (sessionsDir freshId tsName : String)
    (now : Nat) (st : AgentState) :
    (SessionManager.archive hash sessionsDir freshId now tsName false st).2 = none := by
  simp only [SessionManager.archive, SessionStorage.archive, Bool.false_eq_true, if_false]

/-- A failed snapshot write leaves the store as the preceding save left it. -/
theorem archive_fail_store_eq (hash : String → String) (sessionsDir freshId tsName : String)
    (now : Nat) (st : AgentState) :
    (SessionManager.archive hash sessionsDir freshId now tsName false st).1.store =
      SessionStorage.save hash sessionsDir st.store st.session := by
  simp only [SessionManager.archive, SessionStorage.archive, Bool.false_eq_true, if_false]

/-- C5: after a successful `archive`, `listArchived` for the same project
root includes the archived snapshot's metadata and the in-memory session is
a fresh empty one (no messages, null summary, summaryUpTo 0, no todos, the
freshly generated id, distinct from the old one) carrying over only project
root and model; and when writing the archive snapshot fails, the in-memory
session is untouched, no archive path is produced, and the durable current
record still loads as the old session. -/
theorem archive_atomic (hash : String → String) (sessionsDir freshId tsName : String)
    (now : Nat) (st : AgentState) (hfresh : freshId ≠ st.session.id) :
    sessionMetadata st.session ∈ SessionStorage.listArchived hash sessionsDir
      (SessionManager.archive hash sessionsDir freshId now tsName true st).1.store
      st.session.projectRoot ∧
    (SessionManager.archive hash sessionsDir freshId now tsName true st).1.session =
      createEmptySession st.session.projectRoot st.session.model freshId now ∧
    (SessionManager.archive hash sessionsDir freshId now tsName true st).1.session.id ≠
      st.session.id ∧
    (SessionManager.archive hash sessionsDir freshId now tsName true st).2 =
      some (archiveDir hash sessionsDir st.session.projectRoot ++ "/" ++ tsName ++ ".json") ∧
    (SessionManager.archive hash sessionsDir freshId now tsName false st).1.session =
      st.session ∧
    (SessionManager.archive hash sessionsDir freshId now tsName false st).2 = none ∧
    SessionStorage.load hash sessionsDir
      (SessionManager.archive hash sessionsDir freshId now tsName false st).1.store
      st.session.projectRoot = some st.session := by
  refine ⟨?_, ?_, ?_, ?_, ?_, ?_, ?_⟩
  · rw [archive_store_eq]
    exact listArchived_mem hash sessionsDir _ st.session st.session.projectRoot tsName
      (Store.mem_remove (Store.mem_write_self _ _ _)
        (archivePath_ne_currentPath hash sessionsDir st.session.projectRoot tsName))
  · exact archive_session_eq hash sessionsDir freshId tsName now st
  · rw [archive_session_eq]
    exact hfresh
  · exact archive_path_eq hash sessionsDir freshId tsName now st
  · exact archive_fail_session_eq hash sessionsDir freshId tsName now st
  · exact archive_fail_path_eq hash sessionsDir freshId tsName now st
  · rw [archive_fail_store_eq]
    exact load_save_eq hash sessionsDir st.store st.session

/-- C5 witness: a concrete session archived with a fresh id. -/
theorem archive_atomic_witness :
    ("fresh-id" : String) ≠ demoSession.id ∧
    sessionMetadata demoSession ∈ SessionStorage.listArchived (fun _ => "abcdef123456") "/sessions"
      (SessionManager.archive (fun _ => "abcdef123456") "/sessions" "fresh-id" 7 "ts1" true
        ⟨demoSession, []⟩).1.store demoSession.projectRoot ∧
    (SessionManager.archive (fun _ => "abcdef123456") "/sessions" "fresh-id" 7 "ts1" false
        ⟨demoSession, []⟩).1.session = demoSession :=
  ⟨by decide,
   (archive_atomic (fun _ => "abcdef123456") "/sessions" "fresh-id" "ts1" 7
     ⟨demoSession, []⟩ (by decide)).1,
   (archive_atomic (fun _ => "abcdef123456") "/sessions" "fresh-id" "ts1" 7
     ⟨demoSession, []⟩ (by decide)).2.2.2.2.1⟩

end Spot
